import Mathlib

/-!
Verification of the receipt rendering and aggregation core of `receipt-ai`.

Python strings are modelled as `List Char`, Python integers as `Int` where
negative values are reachable (truncation budgets) and as `Nat` elsewhere.
Python slice semantics (negative stop indices) are modelled explicitly.
-/

namespace ReceiptAI

/-- Python slicing `s[:k]`: for a negative stop index `k` the stop position is
counted from the end of the string (clamped at 0). -/
def pySlice (s : List Char) (k : Int) : List Char :=
  if 0 ≤ k then s.take k.toNat else s.take ((s.length : Int) + k).toNat

/-- Helper for `pyWords`: accumulates the current word (reversed) while
scanning. Mirrors CPython `str.split()` with no separator: runs of
whitespace separate words and produce no empty words. -/
def pyWordsAux : List Char → List Char → List (List Char)
  | [], cur => if cur.isEmpty then [] else [cur.reverse]
  | c :: rest, cur =>
    if c.isWhitespace then
      if cur.isEmpty then pyWordsAux rest [] else cur.reverse :: pyWordsAux rest []
    else pyWordsAux rest (c :: cur)

/-- Python `text.split()` (no separator argument). -/
def pyWords (s : List Char) : List (List Char) := pyWordsAux s []

/-- The three-character ellipsis appended by every truncation path. -/
def ellipsis : List Char := ['.', '.', '.']

/-- The word-accumulation loop of `ModularDataManager._truncate_text`
(src/data_manager.py lines 202-210): `test_title = truncated_title +
(" " if truncated_title else "") + word`; the loop breaks at the first
word that does not fit. -/
def accumWords (maxChars : Int) : List (List Char) → List Char → List Char
  | [], acc => acc
  | word :: ws, acc =>
    let test := acc ++ (if acc.isEmpty then [] else [' ']) ++ word
    if (test.length : Int) ≤ maxChars then accumWords maxChars ws test
    else acc

/-- `ModularDataManager._truncate_text(text, max_length)`
(src/data_manager.py lines 195-216). Returns the display text and the
`is_truncated` flag. -/
def truncateText (text : List Char) (maxLength : Int) : List Char × Bool :=
  if (text.length : Int) ≤ maxLength then (text, false)
  else
    let maxChars := maxLength - 3
    let truncated := accumWords maxChars (pyWords text) []
    if truncated.isEmpty then (pySlice text maxChars ++ ellipsis, true)
    else (truncated ++ ellipsis, true)

/-- The list `l` ends with the three-character ellipsis. -/
def hasEllipsisSuffix (l : List Char) : Prop := l.reverse.take 3 = ellipsis.reverse

theorem accumWords_length_le (maxChars : Int) :
    ∀ (ws : List (List Char)) (acc : List Char),
      (acc.length : Int) ≤ maxChars →
      (((accumWords maxChars ws acc).length : Int)) ≤ maxChars := by
  intro ws
  induction ws with
  | nil => intro acc h; simpa [accumWords] using h
  | cons w ws ih =>
    intro acc h
    simp only [accumWords]
    by_cases hfit : ((acc ++ (if acc.isEmpty then [] else [' ']) ++ w).length : Int) ≤ maxChars
    · rw [if_pos hfit]; exact ih _ hfit
    · rw [if_neg hfit]; exact h

theorem pySlice_length_le (s : List Char) (k : Int) (hk : 0 ≤ k) :
    ((pySlice s k).length : Int) ≤ k := by
  simp only [pySlice, if_pos hk]
  have h := List.length_take (k.toNat) s
  have : (s.take k.toNat).length ≤ k.toNat := by simp [h]
  omega

/-- Core length bound for `_truncate_text`: with a budget of at least 3
characters, the display text never exceeds the budget, and short input is
returned unchanged. -/
theorem truncateText_length_le (t : List Char) (n : Int) (hn : 3 ≤ n) :
    (((truncateText t n).1.length : Int)) ≤ n ∧
      ((t.length : Int) ≤ n → (truncateText t n).1 = t) := by
  constructor
  · by_cases h : (t.length : Int) ≤ n
    · simp [truncateText, h]
    · simp only [truncateText, if_neg h]
      split
      · have hs := pySlice_length_le t (n - 3) (by omega)
        simp only [List.length_append]
        have : (ellipsis.length : Int) = 3 := by simp [ellipsis]
        push_cast
        omega
      · have ha := accumWords_length_le (n - 3) (pyWords t) [] (by simp; omega)
        simp only [List.length_append]
        have : (ellipsis.length : Int) = 3 := by simp [ellipsis]
        push_cast
        omega
  · intro h
    simp [truncateText, h]

theorem append_hasEllipsisSuffix (x : List Char) : hasEllipsisSuffix (x ++ ellipsis) := by
  unfold hasEllipsisSuffix
  rw [List.reverse_append]
  have h3 : ellipsis.reverse.length = 3 := by simp [ellipsis]
  rw [← h3, List.take_left]

theorem truncateText_flag_iff (t : List Char) (n : Int) :
    (truncateText t n).2 = true ↔ n < (t.length : Int) := by
  by_cases h : (t.length : Int) ≤ n
  · simp [truncateText, h]
  · simp only [truncateText, if_neg h]
    split <;> simp <;> omega

theorem truncateText_suffix_of_long (t : List Char) (n : Int)
    (h : n < (t.length : Int)) : hasEllipsisSuffix (truncateText t n).1 := by
  have h' : ¬ (t.length : Int) ≤ n := by omega
  simp only [truncateText, if_neg h']
  split
  · exact append_hasEllipsisSuffix _
  · exact append_hasEllipsisSuffix _

/-- C3 (corrected, counterexample): for the three-character input string and
budget 2, `_truncate_text` returns a five-character string, violating the
claimed bound `len(result) <= n`; the negative slice `text[:-1]` keeps two
characters and the ellipsis adds three. -/
theorem truncate_length_counterexample :
    ¬ ((((truncateText ("abc".toList) 2).1.length : Int)) ≤ 2) := by decide

/-- C3 (amended): for every string and every budget of at least 3 characters,
the display text returned by `_truncate_text` has length at most the budget,
and input within the budget is returned unchanged. -/
theorem truncate_display_length_le (t : List Char) (n : Int) (hn : 3 ≤ n) :
    (((truncateText t n).1.length : Int)) ≤ n ∧
      ((t.length : Int) ≤ n → (truncateText t n).1 = t) :=
  truncateText_length_le t n hn

/-- Witness for C3: the amended bound evaluated at a concrete input. -/
theorem truncate_display_length_le_witness :
    ((3 : Int) ≤ 70) ∧ (((truncateText ("hello world".toList) 70).1.length : Int)) ≤ 70 :=
  ⟨by decide, (truncate_display_length_le ("hello world".toList) 70 (by decide)).1⟩

/-- C4 (corrected, counterexample): an input that already ends in the
three-character ellipsis and fits the budget is returned unchanged, so the
result ends in the ellipsis although `len(t) <= n`; the claimed equivalence
fails. -/
theorem truncate_ellipsis_iff_counterexample :
    ¬ (hasEllipsisSuffix (truncateText ("...".toList) 70).1 ↔
        (70 : Int) < ((("...".toList) : List Char).length : Int)) := by
  unfold hasEllipsisSuffix
  decide

/-- C4 (amended): the display text of `_truncate_text` ends in the
three-character ellipsis whenever `len(t) > n`; the `is_truncated` flag is
true exactly when `len(t) > n` (the string-suffix converse fails because an
input already ending in the ellipsis is returned unchanged). -/
theorem truncate_ellipsis_suffix (t : List Char) (n : Int) :
    (n < (t.length : Int) → hasEllipsisSuffix (truncateText t n).1) ∧
      ((truncateText t n).2 = true ↔ n < (t.length : Int)) :=
  ⟨truncateText_suffix_of_long t n, truncateText_flag_iff t n⟩

/-- Witness for C4: the amended suffix property at a concrete oversized input. -/
theorem truncate_ellipsis_suffix_witness :
    ((70 : Int) < ((List.replicate 71 'a').length : Int)) ∧
      hasEllipsisSuffix (truncateText (List.replicate 71 'a') 70).1 :=
  ⟨by decide, (truncate_ellipsis_suffix (List.replicate 71 'a') 70).1 (by decide)⟩

/-- C5 (corrected, counterexample): at budget 2 the first truncation of a
three-character string yields a five-character string, and truncating that
again changes it, so truncation is not idempotent for budgets below 3. -/
theorem truncate_idempotent_counterexample :
    (truncateText ((truncateText ("abc".toList) 2).1) 2).1 ≠
      (truncateText ("abc".toList) 2).1 := by decide

/-- C5 (amended): for every string and every budget of at least 3 characters,
truncation of the display text is idempotent. -/
theorem truncate_idempotent (t : List Char) (n : Int) (hn : 3 ≤ n) :
    (truncateText ((truncateText t n).1) n).1 = (truncateText t n).1 := by
  have hlen := (truncateText_length_le t n hn).1
  revert hlen
  generalize (truncateText t n).1 = r
  intro hlen
  simp [truncateText, hlen]

/-- Witness for C5: idempotence evaluated at a concrete input and budget. -/
theorem truncate_idempotent_witness :
    ((3 : Int) ≤ 70) ∧
      (truncateText ((truncateText ("idempotence check".toList) 70).1) 70).1 =
        (truncateText ("idempotence check".toList) 70).1 :=
  ⟨by decide, truncate_idempotent ("idempotence check".toList) 70 (by decide)⟩

/-- The word-accumulation loop of the daily-brief truncation, duplicated
verbatim in src/daily_brief.py at lines 495-501 (raster), 347-353 (text
mirror) and 91-96 (printer pre-pass): the fit test always counts a
separating space, `len(truncated_title + " " + word) <= max_chars`, while
the append adds the space only when the accumulator is nonempty. -/
def accumBrief (maxChars : Nat) : List (List Char) → List Char → List Char
  | [], acc => acc
  | word :: ws, acc =>
    if (acc ++ ' ' :: word).length ≤ maxChars then
      accumBrief maxChars ws (acc ++ (if acc.isEmpty then [] else [' ']) ++ word)
    else acc

/-- Task display text drawn in the raster image
(src/daily_brief.py, create_daily_brief lines 491-502). -/
def rasterTaskText (title : List Char) : List Char :=
  if 70 < title.length then
    let truncated := accumBrief 67 (pyWords title) []
    if truncated.isEmpty then title.take 67 ++ ellipsis
    else truncated ++ ellipsis
  else title

/-- Task text written to the plain-text mirror file
(src/daily_brief.py, generate_text_brief lines 343-355). -/
def textMirrorTaskText (title : List Char) : List Char :=
  if 70 < title.length then
    let truncated := accumBrief 67 (pyWords title) []
    if truncated.isEmpty then title.take 67 ++ ellipsis
    else truncated ++ ellipsis
  else title

/-- Display text computed by `ModularDataManager.format_for_printing`
(src/data_manager.py lines 167-174): word-boundary truncation with budget
`config.paper_width_mm * 2`. -/
def printableDisplayText (paperWidthMm : Int) (title : List Char) : List Char :=
  (truncateText title (paperWidthMm * 2)).1

/-- Task text emitted into the ESC/POS printer command stream
(src/thermal_printer.py, print_daily_brief lines 160-164): the printable
task is re-truncated with a hard character cut `task_title[:67] + "..."`
when longer than 70 characters. The Python code stringifies the task with
`str(task)`; `PrintableTask` defines no custom string conversion, so the
real stream text is the pydantic field dump. We model the reading most
favorable to the claim, namely that `str(task)` yields `display_text`; the
divergence proved below exists even under that reading. -/
def printerStreamTaskText (paperWidthMm : Int) (title : List Char) : List Char :=
  let s := printableDisplayText paperWidthMm title
  if 70 < s.length then s.take 67 ++ ellipsis else s

/-- A title of a 60-character word, a space and a 20-character word:
81 characters, above the 70-character display limit but below the
116-character `format_for_printing` budget. -/
def divergingTitle : List Char := List.replicate 60 'x' ++ ' ' :: List.replicate 20 'y'

/-- C1 (corrected, counterexample): at `divergingTitle` the printer command
stream shows a hard 67-character cut (`"x"*60 ++ " " ++ "y"*6 ++ "..."`)
while the raster image shows the word-boundary truncation
(`"x"*60 ++ "..."`), with the default 58 mm paper width. -/
theorem output_paths_counterexample :
    printerStreamTaskText 58 divergingTitle ≠ rasterTaskText divergingTitle := by decide

/-- C1 (amended): the raster image and the plain-text mirror apply the
identical word-boundary truncation to every task title, so those two
displayed strings always agree; the printer command stream path instead
word-truncates at budget `paper_width_mm * 2` in `format_for_printing` and
then hard-cuts at 67 characters, so its displayed string can differ. -/
theorem raster_text_mirror_agree (title : List Char) :
    rasterTaskText title = textMirrorTaskText title := rfl

/-- Weather information structure (src/models.py, class WeatherData). -/
structure WeatherData where
  temperature : String
  condition : String
  high : String
  low : String
  humidity : String
  wind_speed : String
  feels_like : String
  icon : String
  history : String
  tomorrow_forecast : String
deriving DecidableEq

/-- Email information structure (src/models.py, class EmailData). -/
structure EmailData where
  sender : String
  subject : String
  summary : String
  priority : String
  time : String
  thread_id : String
  is_important : Bool
deriving DecidableEq

/-- Calendar event structure (src/models.py, class CalendarEvent). -/
structure CalendarEvent where
  title : String
  start_time : String
  end_time : String
  location : String
  description : String
  is_all_day : Bool
  start_date : String
  start_datetime : String
deriving DecidableEq

/-- Task information structure (src/models.py, class TaskData). -/
structure TaskData where
  title : String
  notes : String
  due_date : String
  completed : Bool
  priority : String
  task_id : String
deriving DecidableEq

/-- The five data sources dispatched by `ModularDataManager.fetch_all_data`
(src/data_manager.py lines 100-106). -/
inductive Source where
  | weather
  | emails
  | events
  | tasks
  | shopping
deriving DecidableEq

/-- The outcome of each underlying service call: the fetched value, or the
exception message the service raised. -/
structure FetchOutcomes where
  weather : Except String WeatherData
  emails : Except String (List EmailData)
  events : Except String (List CalendarEvent)
  tasks : Except String (List TaskData)
  shopping : Except String (List TaskData)

/-- fetch_weather (src/data_manager.py lines 53-60): the try/except wrapper
returns the fetched value, or None when the service raised. -/
def fetchWeatherSlot (o : FetchOutcomes) : Option WeatherData :=
  match o.weather with
  | .ok r => some r
  | .error _ => none

/-- fetch_emails (src/data_manager.py lines 62-68): the fetched list, or the
empty list when the service raised. -/
def fetchEmailsSlot (o : FetchOutcomes) : List EmailData :=
  match o.emails with
  | .ok r => r
  | .error _ => []

/-- fetch_events (src/data_manager.py lines 70-76). -/
def fetchEventsSlot (o : FetchOutcomes) : List CalendarEvent :=
  match o.events with
  | .ok r => r
  | .error _ => []

/-- fetch_tasks (src/data_manager.py lines 78-85). -/
def fetchTasksSlot (o : FetchOutcomes) : List TaskData :=
  match o.tasks with
  | .ok r => r
  | .error _ => []

/-- fetch_shopping (src/data_manager.py lines 87-95). -/
def fetchShoppingSlot (o : FetchOutcomes) : List TaskData :=
  match o.shopping with
  | .ok r => r
  | .error _ => []

/-- The tuple assembled by `fetch_all_data`: one slot per source. -/
structure FetchResult where
  weather : Option WeatherData
  emails : List EmailData
  events : List CalendarEvent
  tasks : List TaskData
  shopping : List TaskData
deriving DecidableEq

/-- The result containers as initialized at the top of `fetch_all_data`
(src/data_manager.py lines 45-50). -/
def initialFetchResult : FetchResult :=
  { weather := none, emails := [], events := [], tasks := [], shopping := [] }

/-- One iteration of the `as_completed` collection loop
(src/data_manager.py lines 109-121): the completed future's result is
assigned to the slot selected by its service name. -/
def collectResult (o : FetchOutcomes) (acc : FetchResult) (s : Source) : FetchResult :=
  match s with
  | .weather => { acc with weather := fetchWeatherSlot o }
  | .emails => { acc with emails := fetchEmailsSlot o }
  | .events => { acc with events := fetchEventsSlot o }
  | .tasks => { acc with tasks := fetchTasksSlot o }
  | .shopping => { acc with shopping := fetchShoppingSlot o }

/-- `ModularDataManager.fetch_all_data` (src/data_manager.py lines 40-127),
parametrized by the order in which the five futures complete. -/
def fetchAllData (o : FetchOutcomes) (completionOrder : List Source) : FetchResult :=
  completionOrder.foldl (collectResult o) initialFetchResult

/-- The five dispatched sources (src/data_manager.py lines 100-106). -/
def allSources : List Source :=
  [Source.weather, Source.emails, Source.events, Source.tasks, Source.shopping]

/-- The order-insensitive description of the join: every slot holds the
fetched value on success and the documented default on failure. -/
def canonicalResult (o : FetchOutcomes) : FetchResult :=
  { weather := fetchWeatherSlot o
    emails := fetchEmailsSlot o
    events := fetchEventsSlot o
    tasks := fetchTasksSlot o
    shopping := fetchShoppingSlot o }

theorem foldl_collect_weather (o : FetchOutcomes) :
    ∀ (order : List Source) (acc : FetchResult),
      (order.foldl (collectResult o) acc).weather =
        if Source.weather ∈ order then fetchWeatherSlot o else acc.weather := by
  intro order
  induction order with
  | nil => intro acc; simp
  | cons s rest ih =>
    intro acc
    rw [List.foldl_cons, ih]
    cases s <;> simp [collectResult]

theorem foldl_collect_emails (o : FetchOutcomes) :
    ∀ (order : List Source) (acc : FetchResult),
      (order.foldl (collectResult o) acc).emails =
        if Source.emails ∈ order then fetchEmailsSlot o else acc.emails := by
  intro order
  induction order with
  | nil => intro acc; simp
  | cons s rest ih =>
    intro acc
    rw [List.foldl_cons, ih]
    cases s <;> simp [collectResult]

theorem foldl_collect_events (o : FetchOutcomes) :
    ∀ (order : List Source) (acc : FetchResult),
      (order.foldl (collectResult o) acc).events =
        if Source.events ∈ order then fetchEventsSlot o else acc.events := by
  intro order
  induction order with
  | nil => intro acc; simp
  | cons s rest ih =>
    intro acc
    rw [List.foldl_cons, ih]
    cases s <;> simp [collectResult]

theorem foldl_collect_tasks (o : FetchOutcomes) :
    ∀ (order : List Source) (acc : FetchResult),
      (order.foldl (collectResult o) acc).tasks =
        if Source.tasks ∈ order then fetchTasksSlot o else acc.tasks := by
  intro order
  induction order with
  | nil => intro acc; simp
  | cons s rest ih =>
    intro acc
    rw [List.foldl_cons, ih]
    cases s <;> simp [collectResult]

theorem foldl_collect_shopping (o : FetchOutcomes) :
    ∀ (order : List Source) (acc : FetchResult),
      (order.foldl (collectResult o) acc).shopping =
        if Source.shopping ∈ order then fetchShoppingSlot o else acc.shopping := by
  intro order
  induction order with
  | nil => intro acc; simp
  | cons s rest ih =>
    intro acc
    rw [List.foldl_cons, ih]
    cases s <;> simp [collectResult]

/-- The join equals the canonical per-source description whenever every
source's future is collected, regardless of completion order. -/
theorem fetchAllData_eq_canonical (o : FetchOutcomes) (order : List Source)
    (h : order.Perm allSources) : fetchAllData o order = canonicalResult o := by
  have hmem : ∀ s : Source, s ∈ order := by
    intro s
    rw [h.mem_iff]
    cases s <;> simp [allSources]
  unfold fetchAllData
  have hw := foldl_collect_weather o order initialFetchResult
  have he := foldl_collect_emails o order initialFetchResult
  have hv := foldl_collect_events o order initialFetchResult
  have ht := foldl_collect_tasks o order initialFetchResult
  have hs := foldl_collect_shopping o order initialFetchResult
  rw [if_pos (hmem _)] at hw he hv ht hs
  cases hfold : order.foldl (collectResult o) initialFetchResult
  rw [hfold] at hw he hv ht hs
  simp only [canonicalResult]
  simp_all

/-- C6: fetch_all_data returns normally for every combination of per-source
outcomes, with every slot populated: the fetched value for each succeeding
source and the documented default (None for weather, the empty list for the
others) for each failing source. -/
theorem fetch_all_data_isolates_failures (o : FetchOutcomes) (order : List Source)
    (h : order.Perm allSources) :
    ((∀ w, o.weather = .ok w → (fetchAllData o order).weather = some w) ∧
      (∀ e, o.weather = .error e → (fetchAllData o order).weather = none)) ∧
    ((∀ r, o.emails = .ok r → (fetchAllData o order).emails = r) ∧
      (∀ e, o.emails = .error e → (fetchAllData o order).emails = [])) ∧
    ((∀ r, o.events = .ok r → (fetchAllData o order).events = r) ∧
      (∀ e, o.events = .error e → (fetchAllData o order).events = [])) ∧
    ((∀ r, o.tasks = .ok r → (fetchAllData o order).tasks = r) ∧
      (∀ e, o.tasks = .error e → (fetchAllData o order).tasks = [])) ∧
    ((∀ r, o.shopping = .ok r → (fetchAllData o order).shopping = r) ∧
      (∀ e, o.shopping = .error e → (fetchAllData o order).shopping = [])) := by
  rw [fetchAllData_eq_canonical o order h]
  refine ⟨⟨?_, ?_⟩, ⟨?_, ?_⟩, ⟨?_, ?_⟩, ⟨?_, ?_⟩, ⟨?_, ?_⟩⟩ <;>
    intro x hx <;>
    simp [canonicalResult, fetchWeatherSlot, fetchEmailsSlot, fetchEventsSlot,
      fetchTasksSlot, fetchShoppingSlot, hx]

/-- A degraded run: weather and tasks raise, the remaining services succeed. -/
def sampleOutcomes : FetchOutcomes :=
  { weather := .error "offline"
    emails := .ok [{ sender := "a", subject := "s", summary := "m", priority := "high",
                     time := "9:00", thread_id := "t", is_important := true }]
    events := .ok []
    tasks := .error "api quota"
    shopping := .ok [{ title := "Buy milk", notes := "", due_date := "", completed := false,
                       priority := "low", task_id := "t1" }] }

/-- A completion order in which shopping finishes first. -/
def sampleOrder : List Source :=
  [Source.shopping, Source.tasks, Source.events, Source.emails, Source.weather]

/-- Witness for C6: a run with two failing sources, collected in reverse
dispatch order, still fills every slot with value or default. -/
theorem fetch_all_data_isolates_failures_witness :
    sampleOrder.Perm allSources ∧
      (fetchAllData sampleOutcomes sampleOrder).weather = none ∧
      (fetchAllData sampleOutcomes sampleOrder).tasks = [] := by
  refine ⟨by decide, ?_, ?_⟩
  · exact (fetch_all_data_isolates_failures sampleOutcomes sampleOrder (by decide)).1.2 "offline" rfl
  · exact (fetch_all_data_isolates_failures sampleOutcomes sampleOrder (by decide)).2.2.2.1.2 "api quota" rfl

/-- C7: the tuple returned by fetch_all_data is independent of the order in
which the five source futures complete, because each result is assigned to
the slot selected by its source name. -/
theorem fetch_all_data_order_independent (o : FetchOutcomes)
    (order1 order2 : List Source)
    (h1 : order1.Perm allSources) (h2 : order2.Perm allSources) :
    fetchAllData o order1 = fetchAllData o order2 :=
  (fetchAllData_eq_canonical o order1 h1).trans
    (fetchAllData_eq_canonical o order2 h2).symm

/-- Witness for C7: dispatch order and reversed completion order give the
same tuple on a concrete mixed run. -/
theorem fetch_all_data_order_independent_witness :
    allSources.Perm allSources ∧ sampleOrder.Perm allSources ∧
      fetchAllData sampleOutcomes allSources = fetchAllData sampleOutcomes sampleOrder :=
  ⟨by decide, by decide,
    fetch_all_data_order_independent sampleOutcomes allSources sampleOrder
      (by decide) (by decide)⟩

/-- The mutable state of `ModularDataManager` written during a fetch cycle:
the `last_shopping_list` attribute (src/data_manager.py line 38). -/
structure ManagerState where
  last_shopping_list : List TaskData
deriving DecidableEq

/-- Effect of one `fetch_all_data` call on the manager state
(src/data_manager.py line 90, `self.last_shopping_list = result`): a
successful shopping fetch overwrites the cache; a failing fetch leaves the
previous cycle's value in place. -/
def fetchCycleState (st : ManagerState) (o : FetchOutcomes) : ManagerState :=
  match o.shopping with
  | .ok result => { last_shopping_list := result }
  | .error _ => st

/-- The shopping items used by `format_for_printing`
(src/data_manager.py line 164): `shopping_items or self.last_shopping_list`;
Python treats both None and the empty list as falsy, so the cached list is
read in both cases. -/
def resolveShoppingItems (st : ManagerState) (shopping_items : Option (List TaskData)) :
    List TaskData :=
  match shopping_items with
  | none => st.last_shopping_list
  | some l => if l = [] then st.last_shopping_list else l

/-- C9 (corrected, counterexample): starting from an empty cache, a cycle
whose shopping fetch succeeds overwrites `last_shopping_list`, and a
subsequent `format_for_printing` call without explicit shopping items reads
that cached list, so a field written during one cycle changes the output of
the next one. -/
theorem state_persistence_counterexample :
    resolveShoppingItems (fetchCycleState { last_shopping_list := [] } sampleOutcomes) none ≠
      resolveShoppingItems { last_shopping_list := [] } none := by decide

/-- C9 (amended): the fetched shopping list is cached across receipt
generations in the manager's `last_shopping_list` field: a successful
shopping fetch overwrites it and a later `format_for_printing` call without
explicit shopping items reads it, while a failing fetch leaves the previous
cycle's cached list observable. -/
theorem shopping_cache_persists (st : ManagerState) (o : FetchOutcomes) :
    (∀ l, o.shopping = .ok l →
      fetchCycleState st o = { last_shopping_list := l } ∧
        resolveShoppingItems (fetchCycleState st o) none = l) ∧
    (∀ e, o.shopping = .error e → fetchCycleState st o = st) := by
  constructor
  · intro l hl
    simp [fetchCycleState, hl, resolveShoppingItems]
  · intro e he
    simp [fetchCycleState, he]

/-- Witness for C9: the cache behaviour evaluated on a concrete successful
shopping fetch. -/
theorem shopping_cache_persists_witness :
    sampleOutcomes.shopping =
      Except.ok [{ title := "Buy milk", notes := "", due_date := "", completed := false,
                   priority := "low", task_id := "t1" }] ∧
      resolveShoppingItems
          (fetchCycleState { last_shopping_list := [] } sampleOutcomes) none =
        [{ title := "Buy milk", notes := "", due_date := "", completed := false,
           priority := "low", task_id := "t1" }] :=
  ⟨rfl,
    ((shopping_cache_persists { last_shopping_list := [] } sampleOutcomes).1 _ rfl).2⟩

/-- TableSection (src/todo_models.py lines 64-69): a pydantic model with an
optional title, column headers and row values. -/
structure TableSection where
  title : Option String
  columns : List String
  rows : List (List String)
deriving DecidableEq

/-- Construction of a `TableSection` as pydantic performs it: the model
declares field types only and no validator on `rows`, so every well-typed
rows value is accepted and construction never raises. -/
def TableSection.construct (title : Option String) (columns : List String)
    (rows : List (List String)) : Except String TableSection :=
  .ok { title := title, columns := columns, rows := rows }

/-- Column count used by draw_table (src/todo_receipt.py line 150):
`num_cols = max(1, len(table.columns))`. -/
def numCols (t : TableSection) : Nat := max 1 t.columns.length

/-- Cell lookup of draw_table (src/todo_receipt.py line 183):
`cell_text = row[j] if j < len(row) else ""`; total, never raises. -/
def cellTextAt (row : List String) (j : Nat) : String :=
  if h : j < row.length then row.get ⟨j, h⟩ else ""

/-- The cell texts rendered for one row (src/todo_receipt.py lines 182-187):
one cell per column index `j in range(num_cols)`. -/
def renderRowCells (t : TableSection) (row : List String) : List String :=
  (List.range (numCols t)).map (cellTextAt row)

theorem cellTextAt_nil (j : Nat) : cellTextAt [] j = "" := by
  simp [cellTextAt]

theorem cellTextAt_cons_succ (r : String) (rs : List String) (j : Nat) :
    cellTextAt (r :: rs) (j + 1) = cellTextAt rs j := by
  simp only [cellTextAt, List.length_cons]
  by_cases h : j < rs.length
  · rw [dif_pos (by omega), dif_pos h]
    rfl
  · rw [dif_neg (by omega), dif_neg h]

/-- The cells consulted by draw_table for a row are exactly the row clipped
to the column count and padded on the right with empty strings. -/
theorem rangeMap_cellTextAt (row : List String) :
    ∀ n : Nat, (List.range n).map (cellTextAt row) =
      row.take n ++ List.replicate (n - row.length) "" := by
  induction row with
  | nil =>
    intro n
    have hfun : cellTextAt [] = fun _ : Nat => "" := by
      funext j
      simp [cellTextAt]
    simp [hfun]
  | cons r rs ih =>
    intro n
    cases n with
    | zero => simp
    | succ m =>
      rw [List.range_succ_eq_map, List.map_cons, List.map_map]
      have hcomp : (cellTextAt (r :: rs)) ∘ Nat.succ = cellTextAt rs := by
        funext j
        simpa using cellTextAt_cons_succ r rs j
      rw [hcomp, ih m]
      simp [cellTextAt, List.take_cons]

/-- C8 (corrected, counterexample): a TableSection whose single row has one
cell while two columns are declared is accepted by construction without any
error, refuting the claimed construction-time contract violation. -/
theorem table_construction_counterexample :
    TableSection.construct none ["A", "B"] [["only"]] =
      Except.ok { title := none, columns := ["A", "B"], rows := [["only"]] } ∧
      ([["only"]] : List (List String)).all (fun r => r.length = 2) = false :=
  ⟨rfl, by decide⟩

/-- C8 (amended): a table row whose cell count differs from len(columns) is
accepted at construction time (the pydantic model performs no cell-count
validation), and rendering never raises for such a row: draw_table reads one
cell per column index, taking the row's cell when present and the empty
string otherwise, so the rendered cells are the row clipped to the column
count and padded with empty strings. -/
theorem table_mismatched_row_renders (t : TableSection) (row : List String)
    (hrow : row.length ≠ t.columns.length) :
    TableSection.construct t.title t.columns t.rows = .ok t ∧
      renderRowCells t row = row.take (numCols t) ++ List.replicate (numCols t - row.length) "" := by
  constructor
  · cases t
    rfl
  · exact rangeMap_cellTextAt row (numCols t)

/-- Witness for C8: a one-cell row rendered against a two-column table. -/
theorem table_mismatched_row_renders_witness :
    ((["only"] : List String).length ≠
        (({ title := none, columns := ["A", "B"], rows := [["only"]] } : TableSection)).columns.length) ∧
      renderRowCells { title := none, columns := ["A", "B"], rows := [["only"]] } ["only"] =
        ["only", ""] := by
  refine ⟨by decide, ?_⟩
  have h := (table_mismatched_row_renders
    { title := none, columns := ["A", "B"], rows := [["only"]] } ["only"] (by decide)).2
  rw [h]
  rfl

/-- The candidate chunk of the hyphenation search
(src/todo_receipt.py lines 97 and 103-104):
`remaining[:mid] + ("-" if mid < len(remaining) else "")`. -/
def chunkAt (remaining : List Char) (mid : Nat) : List Char :=
  remaining.take mid ++ (if mid < remaining.length then ['-'] else [])

/-- Python `mid = (low + high) // 2`; both operands stay nonnegative in the
reachable states, where floor and Euclidean division agree. -/
def midpoint (low high : Int) : Int := (low + high) / 2

/-- The binary-search loop of `_wrap_lines` (src/todo_receipt.py lines
95-102), searching the longest prefix length whose measured chunk fits. -/
def searchBest (measure : List Char → Nat) (maxWidth : Nat) (remaining : List Char)
    (low high best : Int) : Int :=
  if h : low ≤ high then
    if measure (chunkAt remaining (midpoint low high).toNat) ≤ maxWidth then
      searchBest measure maxWidth remaining (midpoint low high + 1) high (midpoint low high)
    else
      searchBest measure maxWidth remaining low (midpoint low high - 1) best
  else best
termination_by (high + 1 - low).toNat
decreasing_by
  · unfold midpoint
    omega
  · unfold midpoint
    omega

/-- Any property that holds of the initial `best` and of every prefix length
whose chunk measures within the width holds of the search result. -/
theorem searchBest_invariant (measure : List Char → Nat) (maxWidth : Nat)
    (remaining : List Char) (Q : Int → Prop) :
    ∀ (k : Nat) (low high best : Int), (high + 1 - low).toNat ≤ k → Q best →
      (∀ mid, low ≤ mid → mid ≤ high →
        measure (chunkAt remaining mid.toNat) ≤ maxWidth → Q mid) →
      Q (searchBest measure maxWidth remaining low high best) := by
  intro k
  induction k with
  | zero =>
    intro low high best hk hq hcond
    rw [searchBest]
    rw [dif_neg (by omega)]
    exact hq
  | succ n ih =>
    intro low high best hk hq hcond
    rw [searchBest]
    split
    case isTrue h =>
      have hm1 : low ≤ midpoint low high := by unfold midpoint; omega
      have hm2 : midpoint low high ≤ high := by unfold midpoint; omega
      split
      case isTrue hfit =>
        apply ih
        · omega
        · exact hcond _ hm1 hm2 hfit
        · intro mid h1 h2 h3
          exact hcond mid (by omega) h2 h3
      case isFalse hfit =>
        apply ih
        · omega
        · exact hq
        · intro mid h1 h2 h3
          exact hcond mid h1 (by omega) h3
    case isFalse h => exact hq

/-- `best = 1` initialisation with `low = 1, high = len(remaining)`
(src/todo_receipt.py lines 93-94). -/
def bestFit (measure : List Char → Nat) (maxWidth : Nat) (remaining : List Char) : Int :=
  searchBest measure maxWidth remaining 1 (remaining.length : Int) 1

theorem one_le_bestFit (measure : List Char → Nat) (maxWidth : Nat)
    (remaining : List Char) : 1 ≤ bestFit measure maxWidth remaining := by
  apply searchBest_invariant measure maxWidth remaining (fun b => 1 ≤ b)
    (((remaining.length : Int) + 1 - 1).toNat)
  · omega
  · omega
  · intro mid h1 _ _
    omega

theorem bestFit_le_length (measure : List Char → Nat) (maxWidth : Nat)
    (remaining : List Char) (h : remaining ≠ []) :
    bestFit measure maxWidth remaining ≤ (remaining.length : Int) := by
  have hlen : 0 < remaining.length := List.length_pos.mpr h
  apply searchBest_invariant measure maxWidth remaining
    (fun b => b ≤ (remaining.length : Int)) (((remaining.length : Int) + 1 - 1).toNat)
  · omega
  · omega
  · intro mid _ h2 _
    omega

theorem bestFit_fits_or_one (measure : List Char → Nat) (maxWidth : Nat)
    (remaining : List Char) :
    measure (chunkAt remaining (bestFit measure maxWidth remaining).toNat) ≤ maxWidth ∨
      bestFit measure maxWidth remaining = 1 := by
  apply searchBest_invariant measure maxWidth remaining
    (fun b => measure (chunkAt remaining b.toNat) ≤ maxWidth ∨ b = 1)
    (((remaining.length : Int) + 1 - 1).toNat)
  · omega
  · exact Or.inr rfl
  · intro mid _ _ h3
    exact Or.inl h3

/-- The hyphenation loop of `_wrap_lines` (src/todo_receipt.py lines
91-106): `while remaining:` emit the best-fitting prefix chunk (with a
trailing hyphen unless the chunk is the whole remainder) and continue on
the rest. -/
def hyphenate (measure : List Char → Nat) (maxWidth : Nat) (remaining : List Char) :
    List (List Char) :=
  if hr : remaining.isEmpty then []
  else
    chunkAt remaining (bestFit measure maxWidth remaining).toNat ::
      hyphenate measure maxWidth (remaining.drop (bestFit measure maxWidth remaining).toNat)
termination_by remaining.length
decreasing_by
  have h1 := one_le_bestFit measure maxWidth remaining
  have h2 : remaining ≠ [] := by
    simpa [List.isEmpty_iff] using hr
  have h3 : 0 < remaining.length := List.length_pos.mpr h2
  simp only [List.length_drop]
  omega

/-- The documented degenerate case of the wrapper: a single character,
possibly with the appended hyphen, that still exceeds the width. -/
def degenerateLine (l : List Char) : Prop := ∃ c, l = [c] ∨ l = [c, '-']

/-- Every line emitted by the hyphenation loop either measures within the
width or is the single-glyph degenerate case. -/
theorem hyphenate_lines_fit (measure : List Char → Nat) (maxWidth : Nat) :
    ∀ (k : Nat) (remaining : List Char), remaining.length ≤ k →
      ∀ l ∈ hyphenate measure maxWidth remaining,
        measure l ≤ maxWidth ∨ degenerateLine l := by
  intro k
  induction k with
  | zero =>
    intro remaining hk l hl
    have : remaining = [] := by
      cases remaining with
      | nil => rfl
      | cons c cs => simp at hk
    subst this
    simp [hyphenate] at hl
  | succ n ih =>
    intro remaining hk l hl
    by_cases hr : remaining.isEmpty
    · rw [hyphenate, dif_pos hr] at hl
      simp at hl
    · rw [hyphenate, dif_neg hr] at hl
      have hne : remaining ≠ [] := by simpa [List.isEmpty_iff] using hr
      have hpos : 0 < remaining.length := List.length_pos.mpr hne
      have hb1 := one_le_bestFit measure maxWidth remaining
      cases hl with
      | head =>
        rcases bestFit_fits_or_one measure maxWidth remaining with hfit | hone
        · exact Or.inl hfit
        · right
          rw [hone]
          cases remaining with
          | nil => exact absurd rfl hne
          | cons c cs =>
            refine ⟨c, ?_⟩
            cases cs with
            | nil => left; simp [chunkAt]
            | cons d ds => right; simp [chunkAt]
      | tail _ htail =>
        apply ih (remaining.drop (bestFit measure maxWidth remaining).toNat)
        · simp only [List.length_drop]
          omega
        · exact htail

/-- The hyphenation loop partitions the word: the emitted lines are the
partition cells with a hyphen appended to every cell except the last, and
concatenating the cells recovers the word unchanged. -/
theorem hyphenate_partition (measure : List Char → Nat) (maxWidth : Nat) :
    ∀ (k : Nat) (remaining : List Char), remaining.length ≤ k → remaining ≠ [] →
      ∃ (hs : List (List Char)) (lastChunk : List Char),
        hyphenate measure maxWidth remaining =
          hs.map (fun c => c ++ ['-']) ++ [lastChunk] ∧
        hs.flatten ++ lastChunk = remaining ∧ lastChunk ≠ [] := by
  intro k
  induction k with
  | zero =>
    intro remaining hk hne
    exact absurd (List.length_eq_zero.mp (by omega)) hne
  | succ n ih =>
    intro remaining hk hne
    have hr : ¬ remaining.isEmpty := by simpa [List.isEmpty_iff] using hne
    have hpos : 0 < remaining.length := List.length_pos.mpr hne
    have hb1 := one_le_bestFit measure maxWidth remaining
    have hble := bestFit_le_length measure maxWidth remaining hne
    rw [hyphenate, dif_neg hr]
    by_cases hdrop : remaining.drop (bestFit measure maxWidth remaining).toNat = []
    · have hbn : (bestFit measure maxWidth remaining).toNat = remaining.length := by
        have := List.drop_eq_nil_iff.mp hdrop
        omega
      refine ⟨[], remaining, ?_, by simp, hne⟩
      rw [hdrop]
      rw [hyphenate, dif_pos (by simp)]
      simp [chunkAt, hbn]
    · have hbn : (bestFit measure maxWidth remaining).toNat < remaining.length := by
        by_contra hge
        exact hdrop (List.drop_eq_nil_iff.mpr (by omega))
      obtain ⟨hs, lastChunk, heq, hjoin, hlne⟩ :=
        ih (remaining.drop (bestFit measure maxWidth remaining).toNat)
          (by simp only [List.length_drop]; omega) hdrop
      refine ⟨remaining.take (bestFit measure maxWidth remaining).toNat :: hs, lastChunk,
        ?_, ?_, hlne⟩
      · rw [heq]
        simp [chunkAt, hbn]
      · simp only [List.flatten_cons, List.append_assoc, hjoin]
        exact List.take_append_drop _ remaining

/-- The mutable locals of the word loop of `_wrap_lines`: the accumulated
`lines` list and the `current` line under construction. -/
structure WrapState where
  lines : List (List Char)
  current : List Char

/-- One iteration of the word loop of `_wrap_lines`
(src/todo_receipt.py lines 82-108). -/
def wrapStep (measure : List Char → Nat) (maxWidth : Nat)
    (st : WrapState) (word : List Char) : WrapState :=
  let candidate := if st.current.isEmpty then word else st.current ++ ' ' :: word
  if measure candidate ≤ maxWidth then { lines := st.lines, current := candidate }
  else
    let lines1 := if st.current.isEmpty then st.lines else st.lines ++ [st.current]
    if maxWidth < measure word then
      { lines := lines1 ++ hyphenate measure maxWidth word, current := [] }
    else { lines := lines1, current := word }

/-- `_wrap_lines(draw, text, font, max_width)` (src/todo_receipt.py lines
71-111), with the pixel measurement `draw.textbbox` abstracted as an
arbitrary width function. -/
def wrapLines (measure : List Char → Nat) (maxWidth : Nat) (text : List Char) :
    List (List Char) :=
  if text.isEmpty then []
  else
    (pyWords text).foldl (wrapStep measure maxWidth) { lines := [], current := [] }
      |> fun st => if st.current.isEmpty then st.lines else st.lines ++ [st.current]

/-- Invariant of the word loop: every closed line fits or is degenerate, and
a nonempty current line always fits. -/
def goodState (measure : List Char → Nat) (maxWidth : Nat) (st : WrapState) : Prop :=
  (∀ l ∈ st.lines, measure l ≤ maxWidth ∨ degenerateLine l) ∧
    (¬ st.current.isEmpty → measure st.current ≤ maxWidth)

theorem wrapStep_good (measure : List Char → Nat) (maxWidth : Nat)
    (st : WrapState) (word : List Char) (h : goodState measure maxWidth st) :
    goodState measure maxWidth (wrapStep measure maxWidth st word) := by
  obtain ⟨hlines, hcur⟩ := h
  unfold wrapStep
  by_cases hfit :
      measure (if st.current.isEmpty then word else st.current ++ ' ' :: word) ≤ maxWidth
  · rw [if_pos hfit]
    exact ⟨hlines, fun _ => hfit⟩
  · rw [if_neg hfit]
    have hlines1 : ∀ l ∈ (if st.current.isEmpty then st.lines else st.lines ++ [st.current]),
        measure l ≤ maxWidth ∨ degenerateLine l := by
      by_cases hc : st.current.isEmpty
      · rw [if_pos hc]; exact hlines
      · rw [if_neg hc]
        intro l hl
        rcases List.mem_append.mp hl with hl | hl
        · exact hlines l hl
        · have : l = st.current := by simpa using hl
          subst this
          exact Or.inl (hcur hc)
    by_cases hover : maxWidth < measure word
    · rw [if_pos hover]
      refine ⟨?_, by simp⟩
      intro l hl
      rcases List.mem_append.mp hl with hl | hl
      · exact hlines1 l hl
      · exact hyphenate_lines_fit measure maxWidth word.length word (le_refl _) l hl
    · rw [if_neg hover]
      refine ⟨hlines1, fun _ => ?_⟩
      show measure word ≤ maxWidth
      omega

theorem foldl_wrapStep_good (measure : List Char → Nat) (maxWidth : Nat) :
    ∀ (ws : List (List Char)) (st : WrapState), goodState measure maxWidth st →
      goodState measure maxWidth (ws.foldl (wrapStep measure maxWidth) st) := by
  intro ws
  induction ws with
  | nil => intro st h; exact h
  | cons w ws ih =>
    intro st h
    exact ih _ (wrapStep_good measure maxWidth st w h)

/-- C2 (amended): every line emitted by `_wrap_lines` measures within the
width or is the single-glyph degenerate case, and the binary-search
hyphenation of an oversized word partitions it exactly (a hyphen appended
to every chunk but the last, no character dropped). The sibling splitter in
daily_brief.py lacks the hyphenation branch, see the counterexample. -/
theorem wrap_lines_fit_and_partition (measure : List Char → Nat) (maxWidth : Nat)
    (text : List Char) :
    (∀ l ∈ wrapLines measure maxWidth text, measure l ≤ maxWidth ∨ degenerateLine l) ∧
    (∀ word : List Char, word ≠ [] → maxWidth < measure word →
      ∃ (hs : List (List Char)) (lastChunk : List Char),
        hyphenate measure maxWidth word = hs.map (fun c => c ++ ['-']) ++ [lastChunk] ∧
          hs.flatten ++ lastChunk = word ∧ lastChunk ≠ []) := by
  constructor
  · intro l hl
    unfold wrapLines at hl
    by_cases ht : text.isEmpty
    · rw [if_pos ht] at hl
      simp at hl
    · rw [if_neg ht] at hl
      simp only at hl
      have hst := foldl_wrapStep_good measure maxWidth (pyWords text)
        { lines := [], current := [] } (by constructor <;> simp)
      obtain ⟨hlines, hcur⟩ := hst
      set st := (pyWords text).foldl (wrapStep measure maxWidth) { lines := [], current := [] }
      by_cases hc : st.current.isEmpty
      · rw [if_pos hc] at hl
        exact hlines l hl
      · rw [if_neg hc] at hl
        rcases List.mem_append.mp hl with hl | hl
        · exact hlines l hl
        · have : l = st.current := by simpa using hl
          subst this
          exact Or.inl (hcur hc)
  · intro word hne _hover
    exact hyphenate_partition measure maxWidth word.length word (le_refl _) hne

/-- Witness for C2: the property evaluated at a concrete text and oversized
word, measuring width by character count. -/
theorem wrap_lines_fit_and_partition_witness :
    (("hello".toList) ∈ wrapLines List.length 5 ("hello world".toList) ∧
      (List.length ("hello".toList) ≤ 5 ∨ degenerateLine ("hello".toList))) ∧
    (("abcdefgh".toList) ≠ ([] : List Char) ∧ 3 < List.length ("abcdefgh".toList) ∧
      ∃ (hs : List (List Char)) (lastChunk : List Char),
        hyphenate List.length 3 ("abcdefgh".toList) = hs.map (fun c => c ++ ['-']) ++ [lastChunk] ∧
          hs.flatten ++ lastChunk = ("abcdefgh".toList) ∧ lastChunk ≠ []) := by
  constructor
  · exact ⟨by decide,
      (wrap_lines_fit_and_partition List.length 5 ("hello world".toList)).1
        ("hello".toList) (by decide)⟩
  · exact ⟨by decide, by decide,
      (wrap_lines_fit_and_partition List.length 3 ([] : List Char)).2
        ("abcdefgh".toList) (by decide) (by decide)⟩

/-- One iteration of the word loop of `draw_wrapped_text`
(src/daily_brief.py lines 209-225): a word that alone exceeds the width is
emitted as its own line, unbroken ("force it anyway"). -/
def dbWrapStep (measure : List Char → Nat) (maxWidth : Nat)
    (st : WrapState) (word : List Char) : WrapState :=
  let testLine := if st.current.isEmpty then word else st.current ++ ' ' :: word
  if measure testLine ≤ maxWidth then { lines := st.lines, current := testLine }
  else if st.current.isEmpty then { lines := st.lines ++ [word], current := [] }
  else { lines := st.lines ++ [st.current], current := word }

/-- The line-splitting part of `draw_wrapped_text`
(src/daily_brief.py lines 203-229). -/
def dbWrapLines (measure : List Char → Nat) (maxWidth : Nat) (text : List Char) :
    List (List Char) :=
  (pyWords text).foldl (dbWrapStep measure maxWidth) { lines := [], current := [] }
    |> fun st => if st.current.isEmpty then st.lines else st.lines ++ [st.current]

/-- C2 (corrected, counterexample): `draw_wrapped_text`, one of the two
wrapping routines the claim covers, emits a six-character word at width 3
(character-count measure) as a single unbroken line wider than the page —
no binary-search hyphenation, contradicting the claim. -/
theorem draw_wrapped_text_counterexample :
    dbWrapLines List.length 3 ("abcdef".toList) = [("abcdef".toList)] ∧
      3 < List.length ("abcdef".toList) := by
  constructor
  · decide
  · decide

/-- C10: the hyphenation loop of `_wrap_lines` terminates on every input
and measure: the chosen prefix length is at least 1 and at most the length
of the remainder, so the remainder shrinks strictly on each iteration. -/
theorem hyphenation_loop_decreases (measure : List Char → Nat) (maxWidth : Nat)
    (remaining : List Char) (h : remaining ≠ []) :
    1 ≤ bestFit measure maxWidth remaining ∧
      bestFit measure maxWidth remaining ≤ (remaining.length : Int) ∧
      (remaining.drop (bestFit measure maxWidth remaining).toNat).length <
        remaining.length := by
  have h1 := one_le_bestFit measure maxWidth remaining
  have h2 := bestFit_le_length measure maxWidth remaining h
  have h3 : 0 < remaining.length := List.length_pos.mpr h
  refine ⟨h1, h2, ?_⟩
  simp only [List.length_drop]
  omega

/-- Witness for C10: the strict decrease evaluated at a concrete unbreakable
word that is wider than the page. -/
theorem hyphenation_loop_decreases_witness :
    (("abcdefgh".toList) ≠ ([] : List Char)) ∧
      (("abcdefgh".toList).drop (bestFit List.length 3 ("abcdefgh".toList)).toNat).length <
        (("abcdefgh".toList)).length :=
  ⟨by decide,
    (hyphenation_loop_decreases List.length 3 ("abcdefgh".toList) (by decide)).2.2⟩

end ReceiptAI
